import Mathlib

/-!
Verification development for the visible core of the
adversarial-robustness-toolbox sources: the `RandomizedSmoothingMixin`
(randomized-smoothing prediction and certification,
`art/estimators/certification/randomized_smoothing/randomized_smoothing.py`)
and the `AutoAttack` placeholder (`art/attacks/evasion/auto_attack.py`).

The numeric values that the Python code keeps in numpy float arrays are
modelled as rationals (`ℚ`) where the code only compares and counts them,
and as reals (`ℝ`) where the code calls the exact statistical routines
(`scipy.stats.norm.ppf`, `statsmodels proportion_confint(method="beta")`).
Randomness is externalized: the classifier outputs obtained on the noisy
samples are inputs of the embedded functions.
-/

open scoped BigOperators

/-! ## Basic numpy helpers -/

/-- Maximum of a list of naturals (`np.max` on a nonnegative integer-valued
count vector; `0` on the empty list, which numpy would reject). -/
def listMaxNat (l : List ℕ) : ℕ := l.foldr max 0

/-- Maximum of a nonempty list (`np.max` over a score row); the head is used
as the seed so negative scores are handled correctly. -/
def listMaxQ : List ℚ → ℚ
  | [] => 0
  | a :: t => t.foldl max a

/-- First index attaining the maximum (`np.argmax`): numpy returns the first
occurrence of the maximal value. -/
def argmaxIdxQ (l : List ℚ) : ℕ := l.indexOf (listMaxQ l)

/-- First index attaining the maximum of a count vector
(`np.argmax(counts_pred)`). -/
def argmaxIdxNat (l : List ℕ) : ℕ := l.indexOf (listMaxNat l)

/-- Value found at position 1 of `counts_pred.argsort()[::-1]`, i.e.
`counts_pred[top[1]]` in `RandomizedSmoothingMixin.predict`: the
second-largest entry counting multiplicity (whatever index the stable
argsort picks on ties, the value at descending rank 1 is the second order
statistic, obtained by removing one occurrence of the maximum and taking
the maximum of the rest). -/
def secondLargest (l : List ℕ) : ℕ := listMaxNat (l.erase (listMaxNat l))

/-- One-hot vector of length `m` with the `1` at position `i`
(`smooth_prediction = np.zeros(...); smooth_prediction[i] = 1`). -/
def oneHotVec (m i : ℕ) : List ℚ := (List.range m).map (fun j => if j = i then 1 else 0)

/-! ## Vote aggregation: `RandomizedSmoothingMixin._prediction_counts`

The classifier's outputs on the noisy samples (`predictions`, shape
`(n, nb_classes)`) are a list of score rows.  The code one-hot encodes the
row-wise argmax (`pred[np.arange(...), idx] = 1`) and sums along axis 0, so
the count of class `c` is the number of rows whose argmax is `c`. -/

/-- Vote counts produced by `_prediction_counts` from the classifier output
matrix: entry `c` is the number of sample rows voting (arg-max) for class
`c`. -/
def predictionCounts (preds : List (List ℚ)) (nbClasses : ℕ) : List ℕ :=
  (List.range nbClasses).map (fun c => preds.countP (fun row => argmaxIdxQ row == c))

/-! ## Decision engine: `RandomizedSmoothingMixin.predict`

`scipy.stats.binom_test(count1, count1 + count2, p=0.5)` is the exact
two-sided binomial test.  At `p = 0.5` the binomial distribution is
symmetric, and scipy's "sum of the probabilities of all outcomes at most
as likely as the observed one" equals
`min 1 (2 * P[X ≤ min k (n-k)])` exactly. -/

/-- Exact two-sided binomial test p-value at `p = 0.5` for `k` successes out
of `n` trials (`scipy.stats.binom_test(k, n, p=0.5)`). -/
def binomTestHalf (k n : ℕ) : ℚ :=
  min 1 (2 * (∑ j in Finset.range (min k (n - k) + 1), (n.choose j : ℚ)) / 2 ^ n)

/-- Per-input body of `RandomizedSmoothingMixin.predict`: from the vote
counts of one input, produce the smoothed prediction vector and whether the
call abstained.  The branch mirrors
`if (not is_abstain) or (binom_test(count1, count1+count2, p=0.5) <= self.alpha)`. -/
def predictOne (alpha : ℚ) (isAbstain : Bool) (counts : List ℕ) : List ℚ × Bool :=
  let count1 := listMaxNat counts
  let count2 := secondLargest counts
  if (!isAbstain) || decide (binomTestHalf count1 (count1 + count2) ≤ alpha) then
    (oneHotVec counts.length (argmaxIdxNat counts), false)
  else
    (List.replicate counts.length (0 : ℚ), true)

/-- Test whether a prediction vector is the all-zero (abstained) vector. -/
def isZeroVec (v : List ℚ) : Bool := v.all (fun q => q == 0)

/-- `RandomizedSmoothingMixin.predict` over a collection of inputs.  Each
input is represented by the classifier's score matrix on its noisy samples
(the randomness is externalized); the function returns the list of smoothed
prediction vectors together with the abstention counter `n_abstained`. -/
def rsPredict (alpha : ℚ) (isAbstain : Bool) (nbClasses : ℕ)
    (predsList : List (List (List ℚ))) : List (List ℚ) × ℕ :=
  let results := predsList.map (fun preds => predictOne alpha isAbstain (predictionCounts preds nbClasses))
  (results.map Prod.fst, (results.map Prod.snd).count true)

/-! ## Construction: `RandomizedSmoothingMixin.__init__` -/

/-- Configuration stored by the smoothing wrapper. -/
structure RSConfig where
  sampleSize : ℤ
  scale : ℚ
  alpha : ℚ
  deriving DecidableEq, Repr

/-- Embedding of `RandomizedSmoothingMixin.__init__`: the body only assigns
`self.sample_size`, `self.scale`, `self.alpha`; there is no validation and
no raise path, so construction always succeeds. -/
def initRS (sampleSize : ℤ) (scale alpha : ℚ) : Except String RSConfig :=
  Except.ok ⟨sampleSize, scale, alpha⟩

/-! ## `AutoAttack` placeholder (`art/attacks/evasion/auto_attack.py`)

Both method bodies are `pass`: each call completes normally and returns
Python `None` (modelled as `Option.none`), raising nothing. -/

/-- Embedding of `AutoAttack.generate(x, y=None, **kwargs)`: body is `pass`. -/
def autoAttackGenerate (x : List ℚ) (y : Option (List ℚ)) :
    Except String (Option (List ℚ)) :=
  Except.ok none

/-- Embedding of `AutoAttack.set_params(**kwargs)`: body is `pass`. -/
def autoAttackSetParams (kwargs : List (String × ℚ)) :
    Except String (Option Unit) :=
  Except.ok none

/-! ## Claims C5 and C9 -/

/-- C5 counterexample: constructing the wrapper with the invalid
configuration `alpha = 2` (outside `(0,1)`) succeeds: `__init__` returns
normally instead of failing with a configuration error. -/
theorem c5_init_no_validation_counterexample :
    ¬ ((0 : ℚ) < 2 ∧ (2 : ℚ) < 1) ∧
      initRS 10 (1/10) 2 = Except.ok ⟨10, 1/10, 2⟩ := by
  exact ⟨by norm_num, rfl⟩

/-- C5 (amended): construction performs no validation at all: for every
`sample_size`, `scale` and `alpha` (valid or not) `__init__` stores the
three parameters unchanged and returns successfully; any failure from an
invalid configuration is deferred to later calls. -/
theorem c5_init_always_succeeds (sampleSize : ℤ) (scale alpha : ℚ) :
    initRS sampleSize scale alpha = Except.ok ⟨sampleSize, scale, alpha⟩ := rfl

/-- C9 counterexample: invoking the `AutoAttack` placeholder's operations
does not fail with a "not implemented" error: both `generate` and
`set_params` complete normally (their bodies are `pass`) and return `None`. -/
theorem c9_autoattack_no_error_counterexample :
    autoAttackGenerate [1] none = Except.ok none ∧
      autoAttackSetParams [] = Except.ok none := by
  exact ⟨rfl, rfl⟩

/-- C9 (amended): for every input, `AutoAttack.generate` and
`AutoAttack.set_params` complete without raising and return `None`
(an empty result, not a fabricated attack result, but also not a
"not implemented" failure). -/
theorem c9_autoattack_silent_noop (x : List ℚ) (y : Option (List ℚ))
    (kwargs : List (String × ℚ)) :
    autoAttackGenerate x y = Except.ok none ∧
      autoAttackSetParams kwargs = Except.ok none :=
  ⟨rfl, rfl⟩

/-! ## Structural lemmas on the vote helpers -/

/-- Unfolding lemma for `listMaxNat` on a cons cell. -/
theorem listMaxNat_cons (a : ℕ) (t : List ℕ) : listMaxNat (a :: t) = max a (listMaxNat t) := rfl

/-- The maximum of a nonempty count vector is one of its entries. -/
theorem listMaxNat_mem {l : List ℕ} (h : l ≠ []) : listMaxNat l ∈ l := by
  induction l with
  | nil => exact absurd rfl h
  | cons a t ih =>
    rw [listMaxNat_cons]
    rcases eq_or_ne t [] with ht | ht
    · subst ht; simp [listMaxNat]
    · rcases max_choice a (listMaxNat t) with h2 | h2 <;> rw [h2]
      · exact List.mem_cons_self a t
      · exact List.mem_cons_of_mem a (ih ht)

/-- Folding `max` from a seed stays inside the seed-extended list. -/
theorem foldl_max_mem : ∀ (t : List ℚ) (a : ℚ), t.foldl max a ∈ a :: t
  | [], a => by simp
  | b :: t, a => by
    have h := foldl_max_mem t (max a b)
    simp only [List.foldl_cons]
    rcases List.mem_cons.mp h with h1 | h1
    · rcases max_choice a b with h2 | h2 <;> rw [h1, h2]
      · exact List.mem_cons_self a (b :: t)
      · exact List.mem_cons_of_mem a (List.mem_cons_self b t)
    · exact List.mem_cons_of_mem a (List.mem_cons_of_mem b h1)

/-- The maximum of a nonempty score row is one of its entries. -/
theorem listMaxQ_mem {l : List ℚ} (h : l ≠ []) : listMaxQ l ∈ l := by
  match l, h with
  | a :: t, _ =>
    show t.foldl max a ∈ a :: t
    exact foldl_max_mem t a

/-- numpy's `argmax` of a nonempty count vector is a valid index. -/
theorem argmaxIdxNat_lt_length {l : List ℕ} (h : l ≠ []) : argmaxIdxNat l < l.length :=
  List.indexOf_lt_length.mpr (listMaxNat_mem h)

/-- numpy's `argmax` of a nonempty score row is a valid index. -/
theorem argmaxIdxQ_lt_length {l : List ℚ} (h : l ≠ []) : argmaxIdxQ l < l.length :=
  List.indexOf_lt_length.mpr (listMaxQ_mem h)

/-- A one-hot vector has length `m`. -/
theorem oneHotVec_length (m i : ℕ) : (oneHotVec m i).length = m := by simp [oneHotVec]

/-- The distinguished entry of a one-hot vector is `1`. -/
theorem oneHotVec_getD (m i : ℕ) (hi : i < m) : (oneHotVec m i).getD i 0 = 1 := by
  rw [List.getD_eq_getElem _ _ (by simpa [oneHotVec] using hi)]
  simp [oneHotVec]

/-- A one-hot vector with an in-range index is not the all-zero vector. -/
theorem oneHotVec_ne_zeroVec {m i : ℕ} (hi : i < m) :
    oneHotVec m i ≠ List.replicate m (0 : ℚ) := by
  intro hcontra
  have h1 : (oneHotVec m i).getD i 0 = 1 := oneHotVec_getD m i hi
  rw [hcontra, List.getD_eq_getElem _ _ (by simpa using hi)] at h1
  simp at h1

/-- The all-zero vector passes the `isZeroVec` test. -/
theorem isZeroVec_replicate (m : ℕ) : isZeroVec (List.replicate m (0 : ℚ)) = true := by
  simp only [isZeroVec, List.all_eq_true]
  intro x hx
  simp [List.eq_of_mem_replicate hx]

/-- A one-hot vector with an in-range index fails the `isZeroVec` test. -/
theorem isZeroVec_oneHot {m i : ℕ} (hi : i < m) : isZeroVec (oneHotVec m i) = false := by
  have h1 : (1 : ℚ) ∈ oneHotVec m i :=
    List.mem_map.mpr ⟨i, by simpa using hi, by simp⟩
  rw [Bool.eq_false_iff]
  intro hall
  have h2 := List.all_eq_true.mp hall 1 h1
  simp at h2

/-- The vote-count vector has one entry per class. -/
theorem predictionCounts_length (preds : List (List ℚ)) (nb : ℕ) :
    (predictionCounts preds nb).length = nb := by simp [predictionCounts]

/-! ## Branch lemmas for `predict` -/

/-- With `is_abstain=False` the first branch of `predict` is always taken. -/
theorem predictOne_no_abstain (alpha : ℚ) (counts : List ℕ) :
    predictOne alpha false counts = (oneHotVec counts.length (argmaxIdxNat counts), false) := by
  simp [predictOne]

/-- With `is_abstain=True` and a significant binomial test, `predict` emits
the one-hot arg-max vector. -/
theorem predictOne_abstain_pos (alpha : ℚ) (counts : List ℕ)
    (h : binomTestHalf (listMaxNat counts) (listMaxNat counts + secondLargest counts) ≤ alpha) :
    predictOne alpha true counts = (oneHotVec counts.length (argmaxIdxNat counts), false) := by
  simp [predictOne, h]

/-- With `is_abstain=True` and a non-significant binomial test, `predict`
emits the all-zero vector and abstains. -/
theorem predictOne_abstain_neg (alpha : ℚ) (counts : List ℕ)
    (h : ¬ binomTestHalf (listMaxNat counts) (listMaxNat counts + secondLargest counts) ≤ alpha) :
    predictOne alpha true counts = (List.replicate counts.length (0 : ℚ), true) := by
  simp [predictOne, h]

/-- Reading the `i`-th output of `predict` through the two maps. -/
theorem rsPredict_getD (alpha : ℚ) (b : Bool) (nb : ℕ) (predsList : List (List (List ℚ)))
    (i : ℕ) (hi : i < predsList.length) :
    (rsPredict alpha b nb predsList).1.getD i [] =
      (predictOne alpha b (predictionCounts (predsList.getD i []) nb)).1 := by
  simp only [rsPredict, List.map_map]
  rw [List.getD_eq_getElem _ _ (by simpa using hi), List.getElem_map,
    List.getD_eq_getElem _ _ hi]
  rfl

/-! ## Claim C7: `is_abstain=False` never abstains -/

/-- C7: for every input, `predict` called with `is_abstain=False` returns the
one-hot vector at the arg-max vote-count class, never the all-zero
(abstained) vector, and the abstention counter stays `0`, regardless of the
binomial-test outcome. -/
theorem c7_no_abstain_one_hot (alpha : ℚ) (nb : ℕ) (predsList : List (List (List ℚ)))
    (i : ℕ) (hi : i < predsList.length) (hnb : 2 ≤ nb) :
    (rsPredict alpha false nb predsList).1.getD i [] =
        oneHotVec nb (argmaxIdxNat (predictionCounts (predsList.getD i []) nb)) ∧
      (rsPredict alpha false nb predsList).1.getD i [] ≠ List.replicate nb (0 : ℚ) ∧
      (rsPredict alpha false nb predsList).2 = 0 := by
  have hlen : (predictionCounts (predsList.getD i []) nb).length = nb :=
    predictionCounts_length _ _
  have hne : predictionCounts (predsList.getD i []) nb ≠ [] := by
    intro h; rw [h] at hlen; simp at hlen; omega
  have harg : argmaxIdxNat (predictionCounts (predsList.getD i []) nb) < nb := by
    have h := argmaxIdxNat_lt_length hne
    rwa [hlen] at h
  refine ⟨?_, ?_, ?_⟩
  · rw [rsPredict_getD _ _ _ _ _ hi, predictOne_no_abstain, hlen]
  · rw [rsPredict_getD _ _ _ _ _ hi, predictOne_no_abstain, hlen]
    exact oneHotVec_ne_zeroVec harg
  · simp only [rsPredict, List.map_map]
    rw [List.count_eq_zero]
    intro hmem
    obtain ⟨preds, hp, hval⟩ := List.mem_map.mp hmem
    simp only [Function.comp_apply, predictOne_no_abstain] at hval
    exact Bool.noConfusion hval

/-! ## The binomial test at equal counts -/

/-- Twice the lower half of a central binomial row dominates the full row sum. -/
theorem two_mul_sum_choose_le (c : ℕ) :
    2 ^ (c + c) ≤ 2 * ∑ j in Finset.range (c + 1), (c + c).choose j := by
  have htot : ∑ j in Finset.range (c + c + 1), (c + c).choose j = 2 ^ (c + c) :=
    Nat.sum_range_choose (c + c)
  rw [Finset.range_eq_Ico] at htot ⊢
  have hsplit : (∑ j in Finset.Ico 0 (c + 1), (c + c).choose j) +
        ∑ j in Finset.Ico (c + 1) (c + c + 1), (c + c).choose j
      = ∑ j in Finset.Ico 0 (c + c + 1), (c + c).choose j :=
    Finset.sum_Ico_consecutive _ (Nat.zero_le (c + 1)) (by omega)
  have hcongr : ∑ j in Finset.Ico (c + 1) (c + c + 1), (c + c).choose j
      = ∑ j in Finset.Ico (c + 1) (c + c + 1), (c + c).choose ((c + c) - j) := by
    refine Finset.sum_congr rfl ?_
    intro j hj
    have hj2 : j ≤ c + c := by have := (Finset.mem_Ico.mp hj).2; omega
    exact (Nat.choose_symm hj2).symm
  have hrefl : ∑ j in Finset.Ico (c + 1) (c + c + 1), (c + c).choose ((c + c) - j)
      = ∑ j in Finset.Ico (c + c + 1 - (c + c + 1)) (c + c + 1 - (c + 1)), (c + c).choose j :=
    Finset.sum_Ico_reflect _ _ (le_refl (c + c + 1))
  have e1 : c + c + 1 - (c + c + 1) = 0 := by omega
  have e2 : c + c + 1 - (c + 1) = c := by omega
  rw [e1, e2] at hrefl
  have hsub : ∑ j in Finset.Ico 0 c, (c + c).choose j
      ≤ ∑ j in Finset.Ico 0 (c + 1), (c + c).choose j :=
    Finset.sum_le_sum_of_subset (Finset.Ico_subset_Ico_right (by omega))
  omega

/-- At a deterministic 50/50 split (`count1 = count2 = c`, so `n = 2c`) the
two-sided exact binomial test at `p = 0.5` has p-value exactly `1`. -/
theorem binomTestHalf_equal_counts (c : ℕ) : binomTestHalf c (c + c) = 1 := by
  have hmin : min c (c + c - c) = c := by omega
  have hle : (1 : ℚ) ≤ 2 * (∑ j in Finset.range (c + 1), ((c + c).choose j : ℚ)) / 2 ^ (c + c) := by
    rw [le_div_iff₀ (by positivity)]
    have h := two_mul_sum_choose_le c
    calc (1 : ℚ) * 2 ^ (c + c) = ((2 ^ (c + c) : ℕ) : ℚ) := by push_cast; ring
      _ ≤ ((2 * ∑ j in Finset.range (c + 1), (c + c).choose j : ℕ) : ℚ) := by
          exact_mod_cast h
      _ = 2 * ∑ j in Finset.range (c + 1), ((c + c).choose j : ℚ) := by push_cast; ring
  rw [binomTestHalf, hmin, min_eq_left hle]

/-! ## Claim C6: deterministic 50/50 split always abstains -/

/-- C6: for every input whose vote counts have the largest and second-largest
entries exactly equal (`count1 = count2`), `predict` with `is_abstain=True`
returns the all-zero abstained vector for every `alpha` in `(0,1)`: the
p-value of the binomial test at `p=0.5` with equal counts is exactly `1`,
hence never `≤ alpha`. -/
theorem c6_fifty_fifty_always_abstains (alpha : ℚ) (nb : ℕ)
    (predsList : List (List (List ℚ))) (i : ℕ) (hi : i < predsList.length)
    (ha1 : 0 < alpha) (ha2 : alpha < 1) (hnb : 2 ≤ nb)
    (heq : listMaxNat (predictionCounts (predsList.getD i []) nb) =
        secondLargest (predictionCounts (predsList.getD i []) nb)) :
    (rsPredict alpha true nb predsList).1.getD i [] = List.replicate nb (0 : ℚ) := by
  rw [rsPredict_getD _ _ _ _ _ hi]
  have hlen : (predictionCounts (predsList.getD i []) nb).length = nb :=
    predictionCounts_length _ _
  have hpval : binomTestHalf (listMaxNat (predictionCounts (predsList.getD i []) nb))
      (listMaxNat (predictionCounts (predsList.getD i []) nb) +
        secondLargest (predictionCounts (predsList.getD i []) nb)) = 1 := by
    rw [← heq]
    exact binomTestHalf_equal_counts _
  have hno : ¬ binomTestHalf (listMaxNat (predictionCounts (predsList.getD i []) nb))
      (listMaxNat (predictionCounts (predsList.getD i []) nb) +
        secondLargest (predictionCounts (predsList.getD i []) nb)) ≤ alpha := by
    rw [hpval]; intro h; linarith
  rw [predictOne_abstain_neg _ _ hno, hlen]

/-! ## Claim C8: vote-count invariants of `_prediction_counts` -/

/-- Summing the indicator of a fixed in-range class over all classes gives 1:
each sample row contributes exactly one vote. -/
theorem sum_range_ite_eq_one (n : ℕ) : ∀ k : ℕ, k < n →
    (((List.range n).map (fun c => if k = c then 1 else 0)).sum : ℕ) = 1 := by
  induction n with
  | zero => intro k hk; omega
  | succ m ih =>
    intro k hk
    rw [List.range_succ, List.map_append, List.sum_append]
    rcases Nat.lt_succ_iff_lt_or_eq.mp hk with h | h
    · rw [ih k h]
      have hkm : k ≠ m := by omega
      simp [hkm]
    · subst h
      have hz : ((List.range k).map (fun c => if k = c then 1 else 0)).sum = 0 := by
        apply List.sum_eq_zero
        intro x hx
        obtain ⟨c, hc, hcx⟩ := List.mem_map.mp hx
        have hkc : k ≠ c := by have := List.mem_range.mp hc; omega
        rw [if_neg hkc] at hcx
        omega
      rw [hz]
      simp

/-- The entries of the vote-count vector sum to the number of sample rows. -/
theorem predictionCounts_sum (nb : ℕ) : ∀ (preds : List (List ℚ)),
    (∀ row ∈ preds, argmaxIdxQ row < nb) →
    (predictionCounts preds nb).sum = preds.length := by
  intro preds
  induction preds with
  | nil => intro _; simp [predictionCounts]
  | cons r t ih =>
    intro hrow
    have hr := hrow r (List.mem_cons_self r t)
    have ht := ih (fun row h => hrow row (List.mem_cons_of_mem r h))
    rw [predictionCounts] at ht ⊢
    simp only [List.countP_cons, beq_iff_eq]
    rw [List.sum_map_add, ht]
    have hind : ((List.range nb).map (fun c => if argmaxIdxQ r = c then 1 else 0)).sum = 1 :=
      sum_range_ite_eq_one nb (argmaxIdxQ r) hr
    simp only [beq_iff_eq] at hind ⊢
    rw [hind]
    simp

/-- C8: for every classifier output matrix whose rows all have length
`nb_classes > 0`, the vote-count vector of `_prediction_counts` has one
entry per class, its entries sum to the number of sample rows, and the
entry of class `i` counts exactly the rows whose arg-max is `i` (each
sample contributes exactly one vote, to its arg-max class). -/
theorem c8_vote_counts_invariant (preds : List (List ℚ)) (nb i : ℕ) (hnb : 0 < nb)
    (hrow : ∀ row ∈ preds, row.length = nb) (hi : i < nb) :
    (predictionCounts preds nb).length = nb ∧
      (predictionCounts preds nb).sum = preds.length ∧
      (predictionCounts preds nb).getD i 0 =
        preds.countP (fun row => argmaxIdxQ row == i) := by
  refine ⟨predictionCounts_length _ _, ?_, ?_⟩
  · apply predictionCounts_sum
    intro row hr
    have h1 : row ≠ [] := by
      intro hc
      have h2 := hrow row hr
      rw [hc] at h2
      simp at h2
      omega
    have h2 := argmaxIdxQ_lt_length h1
    rwa [hrow row hr] at h2
  · rw [predictionCounts,
      List.getD_eq_getElem _ _ (by simpa using hi), List.getElem_map, List.getElem_range]

/-! ## Claim C2: full characterization of `predict` with `is_abstain=True` -/

/-- Under `is_abstain=True` the output vector is all-zero exactly when the
call abstained. -/
theorem predictOne_abstained_iff_zero (alpha : ℚ) (counts : List ℕ) (h0 : counts ≠ []) :
    isZeroVec (predictOne alpha true counts).1 = (predictOne alpha true counts).2 := by
  by_cases hp : binomTestHalf (listMaxNat counts) (listMaxNat counts + secondLargest counts) ≤ alpha
  · rw [predictOne_abstain_pos _ _ hp]
    exact isZeroVec_oneHot (argmaxIdxNat_lt_length h0)
  · rw [predictOne_abstain_neg _ _ hp]
    exact isZeroVec_replicate _

/-- Counting `true` flags equals counting all-zero vectors when the flag
agrees with the zero test element-wise. -/
theorem count_true_eq_countP_zero :
    ∀ (l : List (List ℚ × Bool)), (∀ x ∈ l, isZeroVec x.1 = x.2) →
      (l.map Prod.snd).count true = (l.map Prod.fst).countP isZeroVec := by
  intro l
  induction l with
  | nil => intro _; rfl
  | cons x t ih =>
    intro h
    have hx := h x (List.mem_cons_self x t)
    have ht := ih (fun y hy => h y (List.mem_cons_of_mem x hy))
    rw [List.map_cons, List.map_cons, List.count_cons, List.countP_cons, ht, hx]
    cases x.2 <;> simp

/-- The abstention counter reported by `predict` equals the number of
all-zero output vectors. -/
theorem rsPredict_counter (alpha : ℚ) (nb : ℕ) (predsList : List (List (List ℚ)))
    (hnb : 0 < nb) :
    (rsPredict alpha true nb predsList).2 =
      (rsPredict alpha true nb predsList).1.countP isZeroVec := by
  simp only [rsPredict]
  apply count_true_eq_countP_zero
  intro x hx
  obtain ⟨preds, hp, hval⟩ := List.mem_map.mp hx
  subst hval
  apply predictOne_abstained_iff_zero
  intro hc
  have h2 := predictionCounts_length preds nb
  rw [hc] at h2
  simp at h2
  omega

/-- C2: with `is_abstain=True`, every output of `predict` is the one-hot
arg-max vector exactly when the two-sided exact binomial test of `count1`
successes in `count1+count2` trials at `p=0.5` has p-value `≤ alpha`, and
otherwise the all-zero vector; every output is one of these two shapes, and
the reported abstention counter equals the number of all-zero outputs. -/
theorem c2_predict_abstain_characterization (alpha : ℚ) (nb : ℕ)
    (predsList : List (List (List ℚ))) (i : ℕ) (hnb : 2 ≤ nb)
    (hi : i < predsList.length) :
    ((rsPredict alpha true nb predsList).1.getD i [] =
        oneHotVec nb (argmaxIdxNat (predictionCounts (predsList.getD i []) nb)) ↔
      binomTestHalf (listMaxNat (predictionCounts (predsList.getD i []) nb))
          (listMaxNat (predictionCounts (predsList.getD i []) nb) +
            secondLargest (predictionCounts (predsList.getD i []) nb)) ≤ alpha) ∧
      ((rsPredict alpha true nb predsList).1.getD i [] =
          oneHotVec nb (argmaxIdxNat (predictionCounts (predsList.getD i []) nb)) ∨
        (rsPredict alpha true nb predsList).1.getD i [] = List.replicate nb (0 : ℚ)) ∧
      (rsPredict alpha true nb predsList).2 =
        (rsPredict alpha true nb predsList).1.countP isZeroVec := by
  have hlen : (predictionCounts (predsList.getD i []) nb).length = nb :=
    predictionCounts_length _ _
  have hne : predictionCounts (predsList.getD i []) nb ≠ [] := by
    intro hc; rw [hc] at hlen; simp at hlen; omega
  have harg : argmaxIdxNat (predictionCounts (predsList.getD i []) nb) < nb := by
    have h := argmaxIdxNat_lt_length hne
    rwa [hlen] at h
  have hcount := rsPredict_counter alpha nb predsList (by omega)
  rw [rsPredict_getD _ _ _ _ _ hi]
  by_cases hp : binomTestHalf (listMaxNat (predictionCounts (predsList.getD i []) nb))
      (listMaxNat (predictionCounts (predsList.getD i []) nb) +
        secondLargest (predictionCounts (predsList.getD i []) nb)) ≤ alpha
  · rw [predictOne_abstain_pos _ _ hp, hlen]
    exact ⟨⟨fun _ => hp, fun _ => rfl⟩, Or.inl rfl, hcount⟩
  · rw [predictOne_abstain_neg _ _ hp, hlen]
    refine ⟨⟨fun hcontra => ?_, fun hcontra => absurd hcontra hp⟩, Or.inr rfl, hcount⟩
    exact absurd hcontra.symm (oneHotVec_ne_zeroVec harg)

/-! ## Claim C10: frame effect of `predict`/`certify` on the caller's arrays

The numpy calls in `_noisy_samples` (`np.expand_dims`, `np.repeat`, and the
binary `+`) each allocate a fresh array; the local name `x` is rebound, the
caller's array is only read.  To make that observable, arrays live in an
explicit heap (a list of flat arrays addressed by position); every numpy
operation that allocates appends to the heap, and a mutation of an existing
address would be visible as a changed entry. -/

/-- Heap of numpy arrays: each address holds a flat array of entries. -/
abbrev NpHeap := List (List ℚ)

/-- Allocate a fresh array on the heap, returning the new heap and the
address of the fresh array. -/
def heapAlloc (h : NpHeap) (a : List ℚ) : NpHeap × ℕ := (h ++ [a], h.length)

/-- Flattened `np.repeat(np.expand_dims(a, axis=0), n, axis=0)`: `n` copies
of the source array, in a freshly allocated buffer. -/
def repeatArray (a : List ℚ) (n : ℕ) : List ℚ := (List.replicate n a).flatten

/-- Element-wise array addition (`x + noise` allocates its result). -/
def addArrays (a b : List ℚ) : List ℚ := List.zipWith (· + ·) a b

/-- Heap-level `RandomizedSmoothingMixin._noisy_samples`: reads the input
array at address `x`, allocates the repeated copy, then allocates the sum
with the Gaussian noise draw `noise` (randomness externalized).  Returns
the new heap and the address of the noisy sample batch. -/
def noisySamplesH (h : NpHeap) (x : ℕ) (n : ℕ) (noise : List ℚ) : NpHeap × ℕ :=
  let p1 := heapAlloc h (repeatArray (h.getD x []) n)
  let p2 := heapAlloc p1.1 (addArrays (p1.1.getD p1.2 []) noise)
  p2

/-- Heap-level per-input body of `predict`: draw the noisy sample batch,
classify it (`classify` is the external `_predict_model`, a pure read of
the sample array), aggregate votes, decide.  Only `_noisy_samples`
allocates. -/
def predictOneH (classify : List ℚ → List (List ℚ)) (nb ssize : ℕ) (alpha : ℚ)
    (isAbstain : Bool) (h : NpHeap) (x : ℕ) (noise : List ℚ) :
    NpHeap × (List ℚ × Bool) :=
  let p := noisySamplesH h x ssize noise
  (p.1, predictOne alpha isAbstain (predictionCounts (classify (p.1.getD p.2 [])) nb))

/-- Heap-level `predict` over a list of input addresses, threading the heap. -/
def rsPredictH (classify : List ℚ → List (List ℚ)) (nb ssize : ℕ) (alpha : ℚ)
    (isAbstain : Bool) : NpHeap → List (ℕ × List ℚ) → NpHeap × List (List ℚ × Bool)
  | h, [] => (h, [])
  | h, (x, noise) :: rest =>
    let p := predictOneH classify nb ssize alpha isAbstain h x noise
    let q := rsPredictH classify nb ssize alpha isAbstain p.1 rest
    (q.1, p.2 :: q.2)

/-- Allocations only extend the heap: `noisySamplesH` appends, never writes. -/
theorem noisySamplesH_extends (h : NpHeap) (x n : ℕ) (noise : List ℚ) :
    ∃ t : NpHeap, (noisySamplesH h x n noise).1 = h ++ t := by
  refine ⟨[repeatArray (h.getD x []) n,
    addArrays ((h ++ [repeatArray (h.getD x []) n]).getD h.length []) noise], ?_⟩
  simp [noisySamplesH, heapAlloc]

/-- Reading an existing address through an extension is unchanged. -/
theorem getD_append_of_lt (h t : NpHeap) (a : ℕ) (ha : a < h.length) :
    (h ++ t).getD a [] = h.getD a [] := by
  rw [List.getD_eq_getElem _ _ (by simp; omega), List.getD_eq_getElem _ _ ha]
  exact List.getElem_append_left ha

/-- `predictOneH` only extends the heap. -/
theorem predictOneH_extends (classify : List ℚ → List (List ℚ)) (nb ssize : ℕ) (alpha : ℚ)
    (isAbstain : Bool) (h : NpHeap) (x : ℕ) (noise : List ℚ) :
    ∃ t : NpHeap, (predictOneH classify nb ssize alpha isAbstain h x noise).1 = h ++ t := by
  obtain ⟨t, ht⟩ := noisySamplesH_extends h x ssize noise
  exact ⟨t, ht⟩

/-- `rsPredictH` only extends the heap. -/
theorem rsPredictH_extends (classify : List ℚ → List (List ℚ)) (nb ssize : ℕ) (alpha : ℚ)
    (isAbstain : Bool) : ∀ (inputs : List (ℕ × List ℚ)) (h : NpHeap),
    ∃ t : NpHeap, (rsPredictH classify nb ssize alpha isAbstain h inputs).1 = h ++ t := by
  intro inputs
  induction inputs with
  | nil => intro h; exact ⟨[], by simp [rsPredictH]⟩
  | cons p rest ih =>
    intro h
    obtain ⟨t1, ht1⟩ := predictOneH_extends classify nb ssize alpha isAbstain h p.1 p.2
    obtain ⟨t2, ht2⟩ := ih (predictOneH classify nb ssize alpha isAbstain h p.1 p.2).1
    refine ⟨t1 ++ t2, ?_⟩
    show (rsPredictH classify nb ssize alpha isAbstain
      (predictOneH classify nb ssize alpha isAbstain h p.1 p.2).1 rest).1 = h ++ (t1 ++ t2)
    rw [ht2, ht1, List.append_assoc]

/-! ## The Clopper-Pearson lower bound (`_lower_confidence_bound`)

`statsmodels.stats.proportion.proportion_confint(count, nobs, alpha=a,
method="beta")` returns as lower endpoint `0` when `count = 0` and otherwise
the `a/2`-quantile of the Beta(count, nobs-count+1) distribution.  For
integer shape parameters the Beta(k, n-k+1) CDF at `p` is the binomial upper
tail `P[Bin(n,p) ≥ k]`, a polynomial in `p`; the quantile is the infimum of
the upper level set of that tail over `[0,1]`. -/

/-- Upper tail of the binomial distribution:
`P[Bin(n,p) ≥ k] = ∑_{j=k}^n C(n,j) p^j (1-p)^(n-j)`; as a function of `p`
on `[0,1]` this is the CDF of the Beta(k, n-k+1) distribution. -/
noncomputable def binomTail (n k : ℕ) (p : ℝ) : ℝ :=
  ∑ j in Finset.Icc k n, (n.choose j : ℝ) * p ^ j * (1 - p) ^ (n - j)

/-- Lower endpoint of `proportion_confint(count, nobs, alpha=a, method="beta")`. -/
noncomputable def proportionConfintBetaLower (count nobs : ℕ) (a : ℝ) : ℝ :=
  if count = 0 then 0
  else sInf {p : ℝ | p ∈ Set.Icc (0 : ℝ) 1 ∧ a / 2 ≤ binomTail nobs count p}

/-- `RandomizedSmoothingMixin._lower_confidence_bound(n_class_samples,
n_total_samples)`: calls `proportion_confint` with significance `2 * alpha`. -/
noncomputable def lowerConfidenceBound (alpha : ℝ) (nClassSamples nTotalSamples : ℕ) : ℝ :=
  proportionConfintBetaLower nClassSamples nTotalSamples (2 * alpha)

/-- Unfolding `_lower_confidence_bound`: the halved significance `2
alpha / 2` is `alpha` itself. -/
theorem lowerConfidenceBound_eq (alpha : ℝ) (k n : ℕ) :
    lowerConfidenceBound alpha k n =
      if k = 0 then 0
      else sInf {p : ℝ | p ∈ Set.Icc (0 : ℝ) 1 ∧ alpha ≤ binomTail n k p} := by
  rw [lowerConfidenceBound, proportionConfintBetaLower]
  have h2 : 2 * alpha / 2 = alpha := by ring
  rw [h2]

/-- Terms of the binomial tail are nonnegative on `[0,1]`. -/
theorem binomTail_term_nonneg (n j : ℕ) {p : ℝ} (h0 : 0 ≤ p) (h1 : p ≤ 1) :
    0 ≤ (n.choose j : ℝ) * p ^ j * (1 - p) ^ (n - j) := by
  have hp : (0 : ℝ) ≤ 1 - p := by linarith
  positivity

/-- The binomial tail is antitone in the success threshold `k`. -/
theorem binomTail_anti (n k k' : ℕ) (hkk : k ≤ k') {p : ℝ} (h0 : 0 ≤ p) (h1 : p ≤ 1) :
    binomTail n k' p ≤ binomTail n k p := by
  apply Finset.sum_le_sum_of_subset_of_nonneg
  · intro j hj
    rw [Finset.mem_Icc] at hj ⊢
    omega
  · intro j _ _
    exact binomTail_term_nonneg n j h0 h1

/-- At `p = 1` the tail is `1` (only the `j = n` term survives). -/
theorem binomTail_one (n k : ℕ) (hk : k ≤ n) : binomTail n k 1 = 1 := by
  rw [binomTail]
  rw [Finset.sum_eq_single n]
  · simp
  · intro j hj hne
    have hjn : j < n := by
      rw [Finset.mem_Icc] at hj
      omega
    have hz : ((1 : ℝ) - 1) ^ (n - j) = 0 := by
      rw [sub_self]
      exact zero_pow (by omega)
    rw [hz, mul_zero]
  · intro hmem
    exact absurd (Finset.mem_Icc.mpr ⟨hk, le_refl n⟩) hmem

/-- The binomial tail is a continuous function of `p`. -/
theorem binomTail_continuous (n k : ℕ) : Continuous (fun p : ℝ => binomTail n k p) := by
  apply continuous_finset_sum
  intro j _
  exact ((continuous_const.mul (continuous_pow j)).mul
    ((continuous_const.sub continuous_id).pow (n - j)))

/-- The Clopper-Pearson lower bound is nonnegative. -/
theorem lowerConfidenceBound_nonneg (alpha : ℝ) (k n : ℕ) :
    0 ≤ lowerConfidenceBound alpha k n := by
  rw [lowerConfidenceBound_eq]
  split
  · exact le_refl 0
  · exact Real.sInf_nonneg (fun p hp => hp.1.1)

/-- The Clopper-Pearson lower bound is at most any member of its level set;
in particular it is at most `1`. -/
theorem lowerConfidenceBound_le_one (alpha : ℝ) (k n : ℕ) (hk : k ≤ n) (ha : alpha ≤ 1) :
    lowerConfidenceBound alpha k n ≤ 1 := by
  rw [lowerConfidenceBound_eq]
  split
  · norm_num
  · apply csInf_le
    · exact ⟨0, fun p hp => hp.1.1⟩
    · refine ⟨⟨by norm_num, le_refl 1⟩, ?_⟩
      rw [binomTail_one n k hk]
      exact ha

/-- Monotonicity of the Clopper-Pearson lower bound in the success count. -/
theorem lowerConfidenceBound_mono (alpha : ℝ) (k k' n : ℕ) (hkk : k ≤ k') (hk'n : k' ≤ n)
    (ha : alpha ≤ 1) :
    lowerConfidenceBound alpha k n ≤ lowerConfidenceBound alpha k' n := by
  rcases eq_or_ne k 0 with hk0 | hk0
  · rw [hk0]
    have h := lowerConfidenceBound_nonneg alpha k' n
    calc lowerConfidenceBound alpha 0 n = 0 := by rw [lowerConfidenceBound_eq]; simp
      _ ≤ lowerConfidenceBound alpha k' n := h
  · have hk'0 : k' ≠ 0 := by omega
    rw [lowerConfidenceBound_eq, lowerConfidenceBound_eq, if_neg hk0, if_neg hk'0]
    apply csInf_le_csInf
    · exact ⟨0, fun p hp => hp.1.1⟩
    · exact ⟨1, ⟨by norm_num, le_refl 1⟩, by rw [binomTail_one n k' hk'n]; exact ha⟩
    · intro p hp
      exact ⟨hp.1, le_trans hp.2 (binomTail_anti n k k' hkk hp.1.1 hp.1.2)⟩

/-- With a positive significance the Clopper-Pearson lower bound is strictly
below `1`: points slightly below `1` already satisfy the level condition. -/
theorem lowerConfidenceBound_lt_one (alpha : ℝ) (k n : ℕ) (hk : k ≤ n)
    (ha : alpha < 1) :
    lowerConfidenceBound alpha k n < 1 := by
  rw [lowerConfidenceBound_eq]
  split
  · norm_num
  · have hcont : ContinuousAt (fun p : ℝ => binomTail n k p) 1 :=
      (binomTail_continuous n k).continuousAt
    have hval : alpha < (fun p : ℝ => binomTail n k p) 1 := by
      show alpha < binomTail n k 1
      rw [binomTail_one n k hk]
      exact ha
    have hev : ∀ᶠ p in nhds (1 : ℝ), alpha < binomTail n k p :=
      hcont.eventually (eventually_gt_nhds hval)
    rcases Metric.eventually_nhds_iff.mp hev with ⟨ε, hε, hball⟩
    have hminpos : 0 < min (ε / 2) (1 / 2) := lt_min (by linarith) (by norm_num)
    have hminle : min (ε / 2) (1 / 2) ≤ 1 / 2 := min_le_right _ _
    have h0 : (0 : ℝ) ≤ 1 - min (ε / 2) (1 / 2) := by linarith
    have h1 : (1 : ℝ) - min (ε / 2) (1 / 2) ≤ 1 := by linarith
    have hdist : dist (1 - min (ε / 2) (1 / 2)) (1 : ℝ) < ε := by
      rw [Real.dist_eq]
      have habs : |1 - min (ε / 2) (1 / 2) - 1| = min (ε / 2) (1 / 2) := by
        rw [show (1 : ℝ) - min (ε / 2) (1 / 2) - 1 = -(min (ε / 2) (1 / 2)) by ring,
          abs_neg, abs_of_nonneg hminpos.le]
      rw [habs]
      calc min (ε / 2) (1 / 2) ≤ ε / 2 := min_le_left _ _
        _ < ε := by linarith
    have hmem : (1 - min (ε / 2) (1 / 2)) ∈
        {p : ℝ | p ∈ Set.Icc (0 : ℝ) 1 ∧ alpha ≤ binomTail n k p} :=
      ⟨⟨h0, h1⟩, le_of_lt (hball hdist)⟩
    have hle := csInf_le (⟨0, fun p hp => hp.1.1⟩ :
      BddBelow {p : ℝ | p ∈ Set.Icc (0 : ℝ) 1 ∧ alpha ≤ binomTail n k p}) hmem
    linarith

/-! ## The standard normal quantile (`scipy.stats.norm.ppf`)

`norm.ppf` is the exact quantile function of the standard normal
distribution: the generalized inverse of the CDF
`Φ(x) = ∫_{-∞}^x e^{-t²/2}/√(2π) dt`. -/

/-- Density of the standard normal distribution. -/
noncomputable def stdNormalPDF (t : ℝ) : ℝ :=
  Real.exp (-(1 / 2) * t ^ 2) / Real.sqrt (2 * Real.pi)

/-- CDF of the standard normal distribution. -/
noncomputable def stdNormalCDF (x : ℝ) : ℝ := ∫ t in Set.Iic x, stdNormalPDF t

/-- Quantile (generalized inverse CDF) of the standard normal distribution:
the infimum of the upper level set of the CDF. -/
noncomputable def normPpf (q : ℝ) : ℝ := sInf {x : ℝ | q ≤ stdNormalCDF x}

/-- The standard normal density is everywhere positive. -/
theorem stdNormalPDF_pos (t : ℝ) : 0 < stdNormalPDF t := by
  rw [stdNormalPDF]
  have h1 : 0 < Real.sqrt (2 * Real.pi) := Real.sqrt_pos.mpr (by positivity)
  exact div_pos (Real.exp_pos _) h1

/-- The standard normal density is bounded by its value at `0`. -/
theorem stdNormalPDF_le (t : ℝ) : stdNormalPDF t ≤ 1 / Real.sqrt (2 * Real.pi) := by
  rw [stdNormalPDF]
  have h1 : Real.exp (-(1 / 2) * t ^ 2) ≤ 1 :=
    Real.exp_le_one_iff.mpr (by nlinarith [sq_nonneg t])
  have h2 : 0 < Real.sqrt (2 * Real.pi) := Real.sqrt_pos.mpr (by positivity)
  have h3 := mul_le_mul_of_nonneg_right h1 (le_of_lt (inv_pos.mpr h2))
  simpa [div_eq_mul_inv] using h3

/-- The standard normal density is integrable. -/
theorem integrable_stdNormalPDF : MeasureTheory.Integrable stdNormalPDF := by
  have h2 : stdNormalPDF = fun t : ℝ =>
      Real.exp (-(1 / 2) * t ^ 2) / Real.sqrt (2 * Real.pi) := rfl
  rw [h2]
  exact (integrable_exp_neg_mul_sq (by norm_num : (0 : ℝ) < 1 / 2)).div_const _

/-- The standard normal density integrates to `1` over the line. -/
theorem integral_stdNormalPDF : ∫ t, stdNormalPDF t = 1 := by
  have h1 : (∫ t : ℝ, Real.exp (-(1 / 2) * t ^ 2)) = Real.sqrt (Real.pi / (1 / 2)) :=
    integral_gaussian (1 / 2)
  have h2 : Real.pi / (1 / 2) = 2 * Real.pi := by ring
  have h3 : Real.sqrt (2 * Real.pi) ≠ 0 := ne_of_gt (Real.sqrt_pos.mpr (by positivity))
  calc ∫ t, stdNormalPDF t
      = (∫ t : ℝ, Real.exp (-(1 / 2) * t ^ 2)) / Real.sqrt (2 * Real.pi) := by
        rw [← MeasureTheory.integral_div]
        rfl
    _ = 1 := by
        rw [h1, h2]
        exact div_self h3

/-- Splitting the CDF across an interval. -/
theorem stdNormalCDF_split (x y : ℝ) (hxy : x ≤ y) :
    stdNormalCDF y = stdNormalCDF x + ∫ t in Set.Ioc x y, stdNormalPDF t := by
  rw [stdNormalCDF, stdNormalCDF,
    ← MeasureTheory.setIntegral_union (Set.Iic_disjoint_Ioc (le_refl x)) measurableSet_Ioc
      integrable_stdNormalPDF.integrableOn integrable_stdNormalPDF.integrableOn,
    Set.Iic_union_Ioc_eq_Iic hxy]

/-- By symmetry of the density, the CDF at `0` is `1/2`. -/
theorem stdNormalCDF_zero : stdNormalCDF 0 = 1 / 2 := by
  have heven : ∀ t : ℝ, stdNormalPDF (-t) = stdNormalPDF t := by
    intro t
    rw [stdNormalPDF, stdNormalPDF, neg_sq]
  have hIic : (∫ t in Set.Iic (0 : ℝ), stdNormalPDF t)
      = ∫ t in Set.Ioi (0 : ℝ), stdNormalPDF t := by
    have h := integral_comp_neg_Iic (0 : ℝ) stdNormalPDF
    rw [neg_zero] at h
    rw [← h]
    refine MeasureTheory.setIntegral_congr_fun measurableSet_Iic ?_
    intro t _
    exact (heven t).symm
  have htot : (∫ t in Set.Iic (0 : ℝ), stdNormalPDF t)
      + ∫ t in Set.Ioi (0 : ℝ), stdNormalPDF t = 1 := by
    have h := MeasureTheory.integral_add_compl
      (measurableSet_Iic : MeasurableSet (Set.Iic (0 : ℝ))) integrable_stdNormalPDF
    rw [Set.compl_Iic] at h
    rw [h, integral_stdNormalPDF]
  rw [stdNormalCDF]
  linarith

/-- The integral of the positive density over a nondegenerate interval is
positive. -/
theorem setIntegral_stdNormalPDF_pos {x y : ℝ} (hxy : x < y) :
    0 < ∫ t in Set.Ioc x y, stdNormalPDF t := by
  have hnn : 0 ≤ᵐ[MeasureTheory.volume.restrict (Set.Ioc x y)] stdNormalPDF :=
    MeasureTheory.ae_of_all _ (fun t => (stdNormalPDF_pos t).le)
  rw [MeasureTheory.setIntegral_pos_iff_support_of_nonneg_ae hnn
    integrable_stdNormalPDF.integrableOn]
  have hsupp : Function.support stdNormalPDF = Set.univ := by
    ext t
    simp only [Function.mem_support, Set.mem_univ, iff_true]
    exact ne_of_gt (stdNormalPDF_pos t)
  rw [hsupp, Set.univ_inter, Real.volume_Ioc]
  exact ENNReal.ofReal_pos.mpr (by linarith)

/-- Left of the origin the CDF is strictly below `1/2`. -/
theorem stdNormalCDF_lt_half_of_neg {x : ℝ} (hx : x < 0) : stdNormalCDF x < 1 / 2 := by
  have hsplit := stdNormalCDF_split x 0 hx.le
  have hpos := setIntegral_stdNormalPDF_pos hx
  rw [stdNormalCDF_zero] at hsplit
  linarith

/-- Membership in an upper level set at level `≥ 1/2` forces nonnegativity. -/
theorem mem_ppf_set_nonneg {q x : ℝ} (hq : 1 / 2 ≤ q) (hx : q ≤ stdNormalCDF x) : 0 ≤ x := by
  by_contra hneg
  push_neg at hneg
  have h2 := stdNormalCDF_lt_half_of_neg hneg
  linarith

/-- The quantile of any level at least `1/2` is nonnegative. -/
theorem normPpf_nonneg {q : ℝ} (hq : 1 / 2 ≤ q) : 0 ≤ normPpf q :=
  Real.sInf_nonneg (fun _ hx => mem_ppf_set_nonneg hq hx)

/-- scipy's `norm.ppf(0.5)` is exactly `0`. -/
theorem normPpf_half : normPpf (1 / 2) = 0 := by
  apply le_antisymm
  · apply csInf_le ⟨0, fun x hx => mem_ppf_set_nonneg le_rfl hx⟩
    show (1 : ℝ) / 2 ≤ stdNormalCDF 0
    rw [stdNormalCDF_zero]
  · exact normPpf_nonneg le_rfl

/-- The CDF tends to `1` at `+∞`. -/
theorem tendsto_stdNormalCDF_atTop :
    Filter.Tendsto stdNormalCDF Filter.atTop (nhds 1) := by
  have hio : MeasureTheory.IntegrableOn stdNormalPDF (Set.Ioi 0) :=
    integrable_stdNormalPDF.integrableOn
  have h1 : Filter.Tendsto (fun y : ℝ => ∫ t in (0 : ℝ)..y, stdNormalPDF t) Filter.atTop
      (nhds (∫ t in Set.Ioi (0 : ℝ), stdNormalPDF t)) :=
    MeasureTheory.intervalIntegral_tendsto_integral_Ioi 0 hio Filter.tendsto_id
  have h2 : Filter.Tendsto
      (fun y : ℝ => stdNormalCDF 0 + ∫ t in (0 : ℝ)..y, stdNormalPDF t) Filter.atTop
      (nhds (stdNormalCDF 0 + ∫ t in Set.Ioi (0 : ℝ), stdNormalPDF t)) :=
    Filter.Tendsto.const_add _ h1
  have heq : (fun y : ℝ => stdNormalCDF 0 + ∫ t in (0 : ℝ)..y, stdNormalPDF t)
      =ᶠ[Filter.atTop] stdNormalCDF := by
    filter_upwards [Filter.eventually_ge_atTop (0 : ℝ)] with y hy
    rw [intervalIntegral.integral_of_le hy, ← stdNormalCDF_split 0 y hy]
  have hval : stdNormalCDF 0 + ∫ t in Set.Ioi (0 : ℝ), stdNormalPDF t = 1 := by
    rw [stdNormalCDF]
    have h := MeasureTheory.integral_add_compl
      (measurableSet_Iic : MeasurableSet (Set.Iic (0 : ℝ))) integrable_stdNormalPDF
    rw [Set.compl_Iic] at h
    rw [h, integral_stdNormalPDF]
  rw [← hval]
  exact Filter.Tendsto.congr' heq h2

/-- Every level strictly below `1` is attained or exceeded by the CDF. -/
theorem exists_stdNormalCDF_ge {q : ℝ} (hq : q < 1) : ∃ x : ℝ, q ≤ stdNormalCDF x :=
  (tendsto_stdNormalCDF_atTop.eventually (eventually_ge_nhds hq)).exists

/-- Monotonicity of the quantile on `[1/2, 1)`. -/
theorem normPpf_mono {p q : ℝ} (hpq : p ≤ q) (hp : 1 / 2 ≤ p) (hq : q < 1) :
    normPpf p ≤ normPpf q := by
  apply csInf_le_csInf
  · exact ⟨0, fun x hx => mem_ppf_set_nonneg hp hx⟩
  · exact exists_stdNormalCDF_ge hq
  · intro x hx
    exact le_trans hpq hx

/-- The quantile is strictly positive strictly above level `1/2`. -/
theorem normPpf_pos {q : ℝ} (hq : 1 / 2 < q) (hq1 : q < 1) : 0 < normPpf q := by
  have hs : Real.sqrt (2 * Real.pi) ≠ 0 := ne_of_gt (Real.sqrt_pos.mpr (by positivity))
  have hlow : ∀ x ∈ {x : ℝ | q ≤ stdNormalCDF x}, (q - 1 / 2) * Real.sqrt (2 * Real.pi) ≤ x := by
    intro x hx
    by_contra hcon
    push_neg at hcon
    have hx0 : 0 ≤ x := mem_ppf_set_nonneg hq.le hx
    have hsplit := stdNormalCDF_split 0 x hx0
    rw [stdNormalCDF_zero] at hsplit
    have hbound : (∫ t in Set.Ioc (0 : ℝ) x, stdNormalPDF t)
        ≤ 1 / Real.sqrt (2 * Real.pi) * x := by
      have hμ : MeasureTheory.volume (Set.Ioc (0 : ℝ) x) < ⊤ := by
        rw [Real.volume_Ioc]
        exact ENNReal.ofReal_lt_top
      have hC : ∀ t ∈ Set.Ioc (0 : ℝ) x, ‖stdNormalPDF t‖ ≤ 1 / Real.sqrt (2 * Real.pi) := by
        intro t _
        rw [Real.norm_eq_abs, abs_of_pos (stdNormalPDF_pos t)]
        exact stdNormalPDF_le t
      have h := MeasureTheory.norm_setIntegral_le_of_norm_le_const hμ hC
        integrable_stdNormalPDF.integrableOn.aestronglyMeasurable
      rw [Real.volume_Ioc, ENNReal.toReal_ofReal (by linarith)] at h
      have habs := le_abs_self (∫ t in Set.Ioc (0 : ℝ) x, stdNormalPDF t)
      rw [← Real.norm_eq_abs] at habs
      calc (∫ t in Set.Ioc (0 : ℝ) x, stdNormalPDF t)
          ≤ ‖∫ t in Set.Ioc (0 : ℝ) x, stdNormalPDF t‖ := habs
        _ ≤ 1 / Real.sqrt (2 * Real.pi) * (x - 0) := h
        _ = 1 / Real.sqrt (2 * Real.pi) * x := by ring
    have hxlt : 1 / Real.sqrt (2 * Real.pi) * x
        < 1 / Real.sqrt (2 * Real.pi) * ((q - 1 / 2) * Real.sqrt (2 * Real.pi)) :=
      mul_lt_mul_of_pos_left hcon (by positivity)
    have hδval : 1 / Real.sqrt (2 * Real.pi) * ((q - 1 / 2) * Real.sqrt (2 * Real.pi))
        = q - 1 / 2 := by
      field_simp
    have hfx : q ≤ stdNormalCDF x := hx
    linarith
  have hδpos : 0 < (q - 1 / 2) * Real.sqrt (2 * Real.pi) := by
    apply mul_pos (by linarith) (Real.sqrt_pos.mpr (by positivity))
  have hge := le_csInf (exists_stdNormalCDF_ge hq1) hlow
  calc (0 : ℝ) < (q - 1 / 2) * Real.sqrt (2 * Real.pi) := hδpos
    _ ≤ normPpf q := hge

/-! ## Decision engine: `RandomizedSmoothingMixin.certify` -/

/-- Radius attached by `certify` to a lower confidence bound `p`: `0.0` in
the "no certifiable class" branch (`p < 0.5`), `scale * norm.ppf(p)`
otherwise. -/
noncomputable def certRadius (scale p : ℝ) : ℝ :=
  if p < 1 / 2 then 0 else scale * normPpf p

/-- Per-input body of `RandomizedSmoothingMixin.certify`: a first
(configured-size) vote pass selects `class_select = argmax(counts_pred)`, a
second pass of `n` samples yields `count_class = counts_est[class_select]`,
the Clopper-Pearson bound gives `prob_class`, and the branch on
`prob_class < 0.5` produces the sentinel `(-1, 0.0)` or
`(class_select, scale * norm.ppf(prob_class))`. -/
noncomputable def certifyOne (scale alpha : ℝ) (nb n : ℕ)
    (pred1 pred2 : List (List ℚ)) : ℤ × ℝ :=
  let classSelect := argmaxIdxNat (predictionCounts pred1 nb)
  let countClass := (predictionCounts pred2 nb).getD classSelect 0
  let probClass := lowerConfidenceBound alpha countClass n
  ((if probClass < 1 / 2 then -1 else (classSelect : ℤ)), certRadius scale probClass)

/-- `RandomizedSmoothingMixin.certify` over a collection of inputs: each
input carries the classifier outputs of its two independent sample passes;
the result is the parallel pair of arrays `(prediction, radius)`. -/
noncomputable def rsCertify (scale alpha : ℝ) (nb n : ℕ)
    (inputs : List (List (List ℚ) × List (List ℚ))) : List ℤ × List ℝ :=
  (inputs.map (fun s => (certifyOne scale alpha nb n s.1 s.2).1),
   inputs.map (fun s => (certifyOne scale alpha nb n s.1 s.2).2))

/-- Unfolding of `certifyOne` with the let-bindings expanded. -/
theorem certifyOne_eq (scale alpha : ℝ) (nb n : ℕ) (pred1 pred2 : List (List ℚ)) :
    certifyOne scale alpha nb n pred1 pred2 =
      ((if lowerConfidenceBound alpha
            ((predictionCounts pred2 nb).getD (argmaxIdxNat (predictionCounts pred1 nb)) 0) n
            < 1 / 2 then -1
        else (argmaxIdxNat (predictionCounts pred1 nb) : ℤ)),
       certRadius scale (lowerConfidenceBound alpha
          ((predictionCounts pred2 nb).getD (argmaxIdxNat (predictionCounts pred1 nb)) 0) n)) :=
  rfl

/-- Reading the `i`-th certification result through the two maps. -/
theorem rsCertify_getD (scale alpha : ℝ) (nb n : ℕ)
    (inputs : List (List (List ℚ) × List (List ℚ))) (i : ℕ) (hi : i < inputs.length) :
    (rsCertify scale alpha nb n inputs).1.getD i 0 =
        (certifyOne scale alpha nb n (inputs.getD i ([], [])).1 (inputs.getD i ([], [])).2).1 ∧
      (rsCertify scale alpha nb n inputs).2.getD i 0 =
        (certifyOne scale alpha nb n (inputs.getD i ([], [])).1 (inputs.getD i ([], [])).2).2 := by
  constructor
  · simp only [rsCertify]
    rw [List.getD_eq_getElem _ _ (by simpa using hi), List.getElem_map,
      List.getD_eq_getElem _ _ hi]
  · simp only [rsCertify]
    rw [List.getD_eq_getElem _ _ (by simpa using hi), List.getElem_map,
      List.getD_eq_getElem _ _ hi]

/-! ## Claim C1: the certification formula -/

/-- C1: for every input, `certify` returns `(-1, 0.0)` when the
Clopper-Pearson lower confidence bound (from `count_class` successes out of
`n` trials at significance `2*alpha`, exact Beta-quantile method) is
strictly below `0.5`, and otherwise returns
`(class_select, scale * norm.ppf(prob_class))` where `class_select` is the
arg-max class of the first, configured-size vote pass. -/
theorem c1_certify_formula (scale alpha : ℝ) (nb n : ℕ)
    (inputs : List (List (List ℚ) × List (List ℚ))) (i : ℕ) (hi : i < inputs.length) :
    (lowerConfidenceBound alpha
        ((predictionCounts (inputs.getD i ([], [])).2 nb).getD
          (argmaxIdxNat (predictionCounts (inputs.getD i ([], [])).1 nb)) 0) n < 1 / 2 →
      (rsCertify scale alpha nb n inputs).1.getD i 0 = -1 ∧
        (rsCertify scale alpha nb n inputs).2.getD i 0 = 0) ∧
    (¬ lowerConfidenceBound alpha
        ((predictionCounts (inputs.getD i ([], [])).2 nb).getD
          (argmaxIdxNat (predictionCounts (inputs.getD i ([], [])).1 nb)) 0) n < 1 / 2 →
      (rsCertify scale alpha nb n inputs).1.getD i 0 =
          (argmaxIdxNat (predictionCounts (inputs.getD i ([], [])).1 nb) : ℤ) ∧
        (rsCertify scale alpha nb n inputs).2.getD i 0 =
          scale * normPpf (lowerConfidenceBound alpha
            ((predictionCounts (inputs.getD i ([], [])).2 nb).getD
              (argmaxIdxNat (predictionCounts (inputs.getD i ([], [])).1 nb)) 0) n)) := by
  obtain ⟨h1, h2⟩ := rsCertify_getD scale alpha nb n inputs i hi
  rw [h1, h2, certifyOne_eq]
  constructor
  · intro hlt
    constructor
    · show (if _ then (-1 : ℤ) else _) = -1
      rw [if_pos hlt]
    · show certRadius scale _ = 0
      rw [certRadius, if_pos hlt]
  · intro hge
    constructor
    · show (if _ then (-1 : ℤ) else _) = _
      rw [if_neg hge]
    · show certRadius scale _ = scale * normPpf _
      rw [certRadius, if_neg hge]

/-! ## Claim C4: monotonicity in the success count -/

/-- C4: holding the certification sample count `n` and `alpha` fixed,
increasing `count_class` never decreases the Clopper-Pearson lower
confidence bound returned by `_lower_confidence_bound`, and consequently
never decreases the certified radius `certify` computes from that bound. -/
theorem c4_monotone_bound_radius (alpha scale : ℝ) (n k k' : ℕ)
    (hkk : k ≤ k') (hk'n : k' ≤ n) (ha1 : 0 < alpha) (ha2 : alpha < 1) (hs : 0 ≤ scale) :
    lowerConfidenceBound alpha k n ≤ lowerConfidenceBound alpha k' n ∧
      certRadius scale (lowerConfidenceBound alpha k n)
        ≤ certRadius scale (lowerConfidenceBound alpha k' n) := by
  have hmono := lowerConfidenceBound_mono alpha k k' n hkk hk'n ha2.le
  refine ⟨hmono, ?_⟩
  by_cases hq : lowerConfidenceBound alpha k' n < 1 / 2
  · have hp : lowerConfidenceBound alpha k n < 1 / 2 := lt_of_le_of_lt hmono hq
    rw [certRadius, certRadius, if_pos hp, if_pos hq]
  · by_cases hp : lowerConfidenceBound alpha k n < 1 / 2
    · rw [certRadius, certRadius, if_pos hp, if_neg hq]
      exact mul_nonneg hs (normPpf_nonneg (le_of_not_lt hq))
    · rw [certRadius, certRadius, if_neg hp, if_neg hq]
      refine mul_le_mul_of_nonneg_left ?_ hs
      exact normPpf_mono hmono (le_of_not_lt hp)
        (lowerConfidenceBound_lt_one alpha k' n hk'n ha2)

/-! ## Claim C3: sign of the radius and the sentinel -/

/-- Each vote count is at most the number of sample rows. -/
theorem predictionCounts_getD_le (preds : List (List ℚ)) (nb i : ℕ) :
    (predictionCounts preds nb).getD i 0 ≤ preds.length := by
  by_cases hi : i < nb
  · rw [predictionCounts, List.getD_eq_getElem _ _ (by simpa using hi), List.getElem_map]
    exact List.countP_le_length _
  · rw [List.getD_eq_default]
    · exact Nat.zero_le _
    · rw [predictionCounts_length]
      omega

/-- Sign and zero-characterization of the radius produced by one
certification: nonnegative always; zero in the sentinel branch; and zero in
the non-sentinel branch only when the confidence bound is exactly `1/2`. -/
theorem certifyOne_radius_props (scale alpha : ℝ) (nb n : ℕ)
    (pred1 pred2 : List (List ℚ)) (hscale : 0 < scale) (ha2 : alpha < 1)
    (hrows : pred2.length = n) :
    0 ≤ (certifyOne scale alpha nb n pred1 pred2).2 ∧
      ((certifyOne scale alpha nb n pred1 pred2).1 = -1 →
        (certifyOne scale alpha nb n pred1 pred2).2 = 0) ∧
      ((certifyOne scale alpha nb n pred1 pred2).2 = 0 →
        (certifyOne scale alpha nb n pred1 pred2).1 = -1 ∨
          lowerConfidenceBound alpha
            ((predictionCounts pred2 nb).getD
              (argmaxIdxNat (predictionCounts pred1 nb)) 0) n = 1 / 2) := by
  have hkn : (predictionCounts pred2 nb).getD (argmaxIdxNat (predictionCounts pred1 nb)) 0 ≤ n := by
    calc (predictionCounts pred2 nb).getD (argmaxIdxNat (predictionCounts pred1 nb)) 0
        ≤ pred2.length := predictionCounts_getD_le _ _ _
      _ = n := hrows
  rw [certifyOne_eq]
  by_cases hp : lowerConfidenceBound alpha
      ((predictionCounts pred2 nb).getD (argmaxIdxNat (predictionCounts pred1 nb)) 0) n < 1 / 2
  · refine ⟨?_, fun _ => ?_, fun _ => Or.inl ?_⟩
    · show 0 ≤ certRadius scale _
      rw [certRadius, if_pos hp]
    · show certRadius scale _ = 0
      rw [certRadius, if_pos hp]
    · show (if _ then (-1 : ℤ) else _) = -1
      rw [if_pos hp]
  · have hge : 1 / 2 ≤ lowerConfidenceBound alpha
        ((predictionCounts pred2 nb).getD (argmaxIdxNat (predictionCounts pred1 nb)) 0) n :=
      le_of_not_lt hp
    refine ⟨?_, ?_, ?_⟩
    · show 0 ≤ certRadius scale _
      rw [certRadius, if_neg hp]
      exact mul_nonneg hscale.le (normPpf_nonneg hge)
    · intro hcontra
      exfalso
      rw [if_neg hp] at hcontra
      omega
    · intro hrad
      rw [show (((if lowerConfidenceBound alpha
          ((predictionCounts pred2 nb).getD (argmaxIdxNat (predictionCounts pred1 nb)) 0) n
          < 1 / 2 then (-1 : ℤ)
          else (argmaxIdxNat (predictionCounts pred1 nb) : ℤ)),
          certRadius scale (lowerConfidenceBound alpha
            ((predictionCounts pred2 nb).getD
              (argmaxIdxNat (predictionCounts pred1 nb)) 0) n)) : ℤ × ℝ).2
          = certRadius scale (lowerConfidenceBound alpha
            ((predictionCounts pred2 nb).getD
              (argmaxIdxNat (predictionCounts pred1 nb)) 0) n) from rfl,
        certRadius, if_neg hp] at hrad
      have hppf : normPpf (lowerConfidenceBound alpha
          ((predictionCounts pred2 nb).getD
            (argmaxIdxNat (predictionCounts pred1 nb)) 0) n) = 0 := by
        rcases mul_eq_zero.mp hrad with h | h
        · exact absurd h (ne_of_gt hscale)
        · exact h
      right
      by_contra hne
      have hlt : 1 / 2 < lowerConfidenceBound alpha
          ((predictionCounts pred2 nb).getD (argmaxIdxNat (predictionCounts pred1 nb)) 0) n :=
        lt_of_le_of_ne hge (Ne.symm hne)
      have hplt1 := lowerConfidenceBound_lt_one alpha
        ((predictionCounts pred2 nb).getD (argmaxIdxNat (predictionCounts pred1 nb)) 0) n hkn ha2
      have := normPpf_pos hlt hplt1
      linarith

/-- C3 (amended): every radius returned by `certify` is nonnegative; the
sentinel class `-1` always comes with radius `0.0`; and a zero radius
implies either the sentinel or a lower confidence bound exactly equal to
`1/2` (in which case `certify` returns the selected class with radius
`scale * norm.ppf(0.5) = 0`). -/
theorem c3_amended_radius_sentinel (scale alpha : ℝ) (nb n : ℕ)
    (inputs : List (List (List ℚ) × List (List ℚ))) (i : ℕ) (hi : i < inputs.length)
    (hscale : 0 < scale) (ha2 : alpha < 1)
    (hrows : (inputs.getD i ([], [])).2.length = n) :
    0 ≤ (rsCertify scale alpha nb n inputs).2.getD i 0 ∧
      ((rsCertify scale alpha nb n inputs).1.getD i 0 = -1 →
        (rsCertify scale alpha nb n inputs).2.getD i 0 = 0) ∧
      ((rsCertify scale alpha nb n inputs).2.getD i 0 = 0 →
        (rsCertify scale alpha nb n inputs).1.getD i 0 = -1 ∨
          lowerConfidenceBound alpha
            ((predictionCounts (inputs.getD i ([], [])).2 nb).getD
              (argmaxIdxNat (predictionCounts (inputs.getD i ([], [])).1 nb)) 0) n = 1 / 2) := by
  obtain ⟨h1, h2⟩ := rsCertify_getD scale alpha nb n inputs i hi
  rw [h1, h2]
  exact certifyOne_radius_props scale alpha nb n _ _ hscale ha2 hrows

/-- The Beta(3,2) CDF (tail of `Bin(4, p)` at threshold 3) as a polynomial. -/
theorem binomTail_4_3 (p : ℝ) : binomTail 4 3 p = 4 * p ^ 3 * (1 - p) + p ^ 4 := by
  rw [binomTail]
  rw [show Finset.Icc 3 4 = ({3, 4} : Finset ℕ) by decide]
  rw [Finset.sum_insert (by decide), Finset.sum_singleton]
  norm_num [Nat.choose]

/-- With `alpha = 5/16`, `count_class = 3` and `n = 4` the Clopper-Pearson
lower bound is exactly `1/2`: the tail polynomial `4p³(1-p) + p⁴` is
strictly increasing on `[0, 1/2]` and hits `5/16` exactly at `p = 1/2`. -/
theorem lowerConfidenceBound_boundary : lowerConfidenceBound (5 / 16) 3 4 = 1 / 2 := by
  rw [lowerConfidenceBound_eq, if_neg (by norm_num)]
  apply le_antisymm
  · apply csInf_le ⟨0, fun p hp => hp.1.1⟩
    refine ⟨⟨by norm_num, by norm_num⟩, ?_⟩
    rw [binomTail_4_3]
    norm_num
  · refine le_csInf ⟨1 / 2, ⟨by norm_num, by norm_num⟩, by rw [binomTail_4_3]; norm_num⟩ ?_
    intro p hp
    obtain ⟨⟨hp0, hp1⟩, hpb⟩ := hp
    by_contra hlt
    push_neg at hlt
    rw [binomTail_4_3] at hpb
    have key : (5 : ℝ) / 16 - (4 * p ^ 3 * (1 - p) + p ^ 4)
        = (1 / 2 - p) * (5 / 8 + 5 / 4 * p + 5 / 2 * p ^ 2 - 3 * p ^ 3) := by ring
    have h3 : 3 * p ^ 3 ≤ 3 / 2 * p ^ 2 := by
      nlinarith [mul_nonneg (sq_nonneg p) (show (0 : ℝ) ≤ 1 / 2 - p by linarith)]
    have hfac : 0 < 5 / 8 + 5 / 4 * p + 5 / 2 * p ^ 2 - 3 * p ^ 3 := by
      nlinarith [sq_nonneg p, mul_nonneg (show (0 : ℝ) ≤ 5 / 4 by norm_num) hp0]
    have hpos : 0 < (1 / 2 - p) * (5 / 8 + 5 / 4 * p + 5 / 2 * p ^ 2 - 3 * p ^ 3) :=
      mul_pos (by linarith) hfac
    linarith

/-- C3 counterexample: with `scale = 1`, `alpha = 5/16`, a first pass voting
for class `0` and a second pass of `n = 4` samples with `3` votes for class
`0`, the lower confidence bound is exactly `1/2`, so `certify` returns the
selected class `0` (not the sentinel `-1`) together with radius
`1 * norm.ppf(1/2) = 0.0`: the radius is `0.0` while the predicted class is
not the sentinel, refuting the claimed equivalence. -/
theorem c3_radius_zero_nonsentinel_counterexample :
    (rsCertify 1 (5 / 16) 2 4
        [([[1, 0]], [[1, 0], [1, 0], [1, 0], [0, 1]])]).2.getD 0 0 = 0 ∧
      (rsCertify 1 (5 / 16) 2 4
        [([[1, 0]], [[1, 0], [1, 0], [1, 0], [0, 1]])]).1.getD 0 0 ≠ -1 := by
  obtain ⟨h1, h2⟩ := rsCertify_getD 1 (5 / 16) 2 4
    [([[1, 0]], [[1, 0], [1, 0], [1, 0], [0, 1]])] 0 (by norm_num)
  rw [h1, h2, certifyOne_eq]
  have hc1 : predictionCounts ([([[1, 0]], [[1, 0], [1, 0], [1, 0], [0, 1]])].getD 0
      (([], []) : List (List ℚ) × List (List ℚ))).1 2 = [1, 0] := by decide
  have hc2 : predictionCounts ([([[1, 0]], [[1, 0], [1, 0], [1, 0], [0, 1]])].getD 0
      (([], []) : List (List ℚ) × List (List ℚ))).2 2 = [3, 1] := by decide
  rw [hc1, hc2]
  rw [show argmaxIdxNat [1, 0] = 0 by decide]
  rw [show ([3, 1] : List ℕ).getD 0 0 = 3 by decide]
  rw [lowerConfidenceBound_boundary]
  constructor
  · show certRadius 1 (1 / 2) = 0
    rw [certRadius, if_neg (by norm_num), normPpf_half, mul_zero]
  · show (if (1 : ℝ) / 2 < 1 / 2 then (-1 : ℤ) else ((0 : ℕ) : ℤ)) ≠ -1
    rw [if_neg (by norm_num)]
    decide

/-! ## Heap-level `certify` and claim C10 -/

/-- Heap-level per-input body of `certify`: the two independent sample
passes each allocate through `_noisy_samples`; the classifier reads the
fresh sample arrays and everything downstream is pure. -/
noncomputable def certifyOneH (classify : List ℚ → List (List ℚ)) (nb ssize n : ℕ)
    (scale alpha : ℝ) (h : NpHeap) (x : ℕ) (noise1 noise2 : List ℚ) :
    NpHeap × (ℤ × ℝ) :=
  let p1 := noisySamplesH h x ssize noise1
  let p2 := noisySamplesH p1.1 x n noise2
  (p2.1, certifyOne scale alpha nb n
    (classify (p2.1.getD p1.2 [])) (classify (p2.1.getD p2.2 [])))

/-- Heap-level `certify` over a list of input addresses, threading the heap. -/
noncomputable def rsCertifyH (classify : List ℚ → List (List ℚ)) (nb ssize n : ℕ)
    (scale alpha : ℝ) : NpHeap → List (ℕ × List ℚ × List ℚ) → NpHeap × List (ℤ × ℝ)
  | h, [] => (h, [])
  | h, (x, n1, n2) :: rest =>
    let p := certifyOneH classify nb ssize n scale alpha h x n1 n2
    let q := rsCertifyH classify nb ssize n scale alpha p.1 rest
    (q.1, p.2 :: q.2)

/-- `certifyOneH` only extends the heap. -/
theorem certifyOneH_extends (classify : List ℚ → List (List ℚ)) (nb ssize n : ℕ)
    (scale alpha : ℝ) (h : NpHeap) (x : ℕ) (noise1 noise2 : List ℚ) :
    ∃ t : NpHeap, (certifyOneH classify nb ssize n scale alpha h x noise1 noise2).1 = h ++ t := by
  obtain ⟨t1, ht1⟩ := noisySamplesH_extends h x ssize noise1
  obtain ⟨t2, ht2⟩ := noisySamplesH_extends (noisySamplesH h x ssize noise1).1 x n noise2
  refine ⟨t1 ++ t2, ?_⟩
  show (noisySamplesH (noisySamplesH h x ssize noise1).1 x n noise2).1 = h ++ (t1 ++ t2)
  rw [ht2, ht1, List.append_assoc]

/-- `rsCertifyH` only extends the heap. -/
theorem rsCertifyH_extends (classify : List ℚ → List (List ℚ)) (nb ssize n : ℕ)
    (scale alpha : ℝ) : ∀ (inputs : List (ℕ × List ℚ × List ℚ)) (h : NpHeap),
    ∃ t : NpHeap, (rsCertifyH classify nb ssize n scale alpha h inputs).1 = h ++ t := by
  intro inputs
  induction inputs with
  | nil => intro h; exact ⟨[], by simp [rsCertifyH]⟩
  | cons p rest ih =>
    intro h
    obtain ⟨t1, ht1⟩ :=
      certifyOneH_extends classify nb ssize n scale alpha h p.1 p.2.1 p.2.2
    obtain ⟨t2, ht2⟩ :=
      ih (certifyOneH classify nb ssize n scale alpha h p.1 p.2.1 p.2.2).1
    refine ⟨t1 ++ t2, ?_⟩
    show (rsCertifyH classify nb ssize n scale alpha
      (certifyOneH classify nb ssize n scale alpha h p.1 p.2.1 p.2.2).1 rest).1
      = h ++ (t1 ++ t2)
    rw [ht2, ht1, List.append_assoc]

/-- C10: neither `predict` nor `certify` modifies any array the caller
already holds: every numpy step of `_noisy_samples` (`expand_dims`/`repeat`
and the addition of the noise) writes only freshly allocated arrays, so
after the call every pre-existing heap address (in particular the input
`x`) still holds exactly its old contents, element for element. -/
theorem c10_predict_certify_frame (classify : List ℚ → List (List ℚ)) (nb ssize n : ℕ)
    (alphaQ : ℚ) (isAbstain : Bool) (scale alpha : ℝ) (h : NpHeap)
    (inputsP : List (ℕ × List ℚ)) (inputsC : List (ℕ × List ℚ × List ℚ))
    (a : ℕ) (ha : a < h.length) :
    (rsPredictH classify nb ssize alphaQ isAbstain h inputsP).1.getD a [] = h.getD a [] ∧
      (rsCertifyH classify nb ssize n scale alpha h inputsC).1.getD a [] = h.getD a [] := by
  constructor
  · obtain ⟨t, ht⟩ := rsPredictH_extends classify nb ssize alphaQ isAbstain inputsP h
    rw [ht]
    exact getD_append_of_lt h t a ha
  · obtain ⟨t, ht⟩ := rsCertifyH_extends classify nb ssize n scale alpha inputsC h
    rw [ht]
    exact getD_append_of_lt h t a ha

/-! ## Witnesses -/

/-- Witness for C4 at `alpha = 1/2`, `scale = 1`, `n = 2`, `k = 1 ≤ k' = 2`. -/
theorem c4_monotone_bound_radius_witness :
    lowerConfidenceBound (1 / 2) 1 2 ≤ lowerConfidenceBound (1 / 2) 2 2 ∧
      certRadius 1 (lowerConfidenceBound (1 / 2) 1 2)
        ≤ certRadius 1 (lowerConfidenceBound (1 / 2) 2 2) :=
  c4_monotone_bound_radius (1 / 2) 1 2 1 2 (by norm_num) (by norm_num) (by norm_num)
    (by norm_num) (by norm_num)

/-- Witness for C8 on a concrete `2 × 2` score matrix. -/
theorem c8_vote_counts_invariant_witness :
    (predictionCounts [[(1 : ℚ), 0], [0, 1]] 2).length = 2 ∧
      (predictionCounts [[(1 : ℚ), 0], [0, 1]] 2).sum =
        ([[(1 : ℚ), 0], [0, 1]] : List (List ℚ)).length ∧
      (predictionCounts [[(1 : ℚ), 0], [0, 1]] 2).getD 0 0 =
        ([[(1 : ℚ), 0], [0, 1]] : List (List ℚ)).countP (fun row => argmaxIdxQ row == 0) :=
  c8_vote_counts_invariant [[(1 : ℚ), 0], [0, 1]] 2 0 (by norm_num)
    (by intro row hr; fin_cases hr <;> rfl) (by norm_num)

/-- Witness for C10 on a one-array heap. -/
theorem c10_predict_certify_frame_witness :
    (rsPredictH (fun _ => []) 1 1 0 true [[1]] [(0, [0])]).1.getD 0 [] =
        ([[1]] : NpHeap).getD 0 [] ∧
      (rsCertifyH (fun _ => []) 1 1 1 0 0 [[1]] [(0, [0], [0])]).1.getD 0 [] =
        ([[1]] : NpHeap).getD 0 [] :=
  c10_predict_certify_frame (fun _ => []) 1 1 1 0 true 0 0 [[1]]
    [(0, [0])] [(0, [0], [0])] 0 (by norm_num)

/-- Witness for C6: a deterministic 50/50 split between the two classes. -/
theorem c6_fifty_fifty_always_abstains_witness :
    (rsPredict (1 / 2) true 2 [[[(1 : ℚ), 0], [0, 1]]]).1.getD 0 [] =
      List.replicate 2 (0 : ℚ) :=
  c6_fifty_fifty_always_abstains (1 / 2) 2 [[[(1 : ℚ), 0], [0, 1]]] 0 (by norm_num)
    (by norm_num) (by norm_num) (by norm_num) (by decide)

/-- Witness for C7 on a single input with one sample row. -/
theorem c7_no_abstain_one_hot_witness :
    (rsPredict (1 / 2) false 2 [[[(1 : ℚ), 0]]]).1.getD 0 [] =
        oneHotVec 2 (argmaxIdxNat (predictionCounts
          (([[[(1 : ℚ), 0]]] : List (List (List ℚ))).getD 0 []) 2)) ∧
      (rsPredict (1 / 2) false 2 [[[(1 : ℚ), 0]]]).1.getD 0 [] ≠
        List.replicate 2 (0 : ℚ) ∧
      (rsPredict (1 / 2) false 2 [[[(1 : ℚ), 0]]]).2 = 0 :=
  c7_no_abstain_one_hot (1 / 2) 2 [[[(1 : ℚ), 0]]] 0 (by norm_num) (by norm_num)

/-- Witness for C2 on a single input with one sample row. -/
theorem c2_predict_abstain_characterization_witness :
    ((rsPredict (1 / 2) true 2 [[[(1 : ℚ), 0]]]).1.getD 0 [] =
        oneHotVec 2 (argmaxIdxNat (predictionCounts
          (([[[(1 : ℚ), 0]]] : List (List (List ℚ))).getD 0 []) 2)) ↔
      binomTestHalf (listMaxNat (predictionCounts
          (([[[(1 : ℚ), 0]]] : List (List (List ℚ))).getD 0 []) 2))
          (listMaxNat (predictionCounts
            (([[[(1 : ℚ), 0]]] : List (List (List ℚ))).getD 0 []) 2) +
            secondLargest (predictionCounts
              (([[[(1 : ℚ), 0]]] : List (List (List ℚ))).getD 0 []) 2)) ≤ 1 / 2) ∧
      ((rsPredict (1 / 2) true 2 [[[(1 : ℚ), 0]]]).1.getD 0 [] =
          oneHotVec 2 (argmaxIdxNat (predictionCounts
            (([[[(1 : ℚ), 0]]] : List (List (List ℚ))).getD 0 []) 2)) ∨
        (rsPredict (1 / 2) true 2 [[[(1 : ℚ), 0]]]).1.getD 0 [] =
          List.replicate 2 (0 : ℚ)) ∧
      (rsPredict (1 / 2) true 2 [[[(1 : ℚ), 0]]]).2 =
        (rsPredict (1 / 2) true 2 [[[(1 : ℚ), 0]]]).1.countP isZeroVec :=
  c2_predict_abstain_characterization (1 / 2) 2 [[[(1 : ℚ), 0]]] 0 (by norm_num)
    (by norm_num)

/-- Witness for C1 on a single input whose two sample passes are one row
each. -/
theorem c1_certify_formula_witness :
    (lowerConfidenceBound (1 / 2)
        ((predictionCounts (([([[1, 0]], [[1, 0]])] :
            List (List (List ℚ) × List (List ℚ))).getD 0 ([], [])).2 2).getD
          (argmaxIdxNat (predictionCounts (([([[1, 0]], [[1, 0]])] :
            List (List (List ℚ) × List (List ℚ))).getD 0 ([], [])).1 2)) 0) 1 < 1 / 2 →
      (rsCertify 1 (1 / 2) 2 1 [([[1, 0]], [[1, 0]])]).1.getD 0 0 = -1 ∧
        (rsCertify 1 (1 / 2) 2 1 [([[1, 0]], [[1, 0]])]).2.getD 0 0 = 0) ∧
    (¬ lowerConfidenceBound (1 / 2)
        ((predictionCounts (([([[1, 0]], [[1, 0]])] :
            List (List (List ℚ) × List (List ℚ))).getD 0 ([], [])).2 2).getD
          (argmaxIdxNat (predictionCounts (([([[1, 0]], [[1, 0]])] :
            List (List (List ℚ) × List (List ℚ))).getD 0 ([], [])).1 2)) 0) 1 < 1 / 2 →
      (rsCertify 1 (1 / 2) 2 1 [([[1, 0]], [[1, 0]])]).1.getD 0 0 =
          (argmaxIdxNat (predictionCounts (([([[1, 0]], [[1, 0]])] :
            List (List (List ℚ) × List (List ℚ))).getD 0 ([], [])).1 2) : ℤ) ∧
        (rsCertify 1 (1 / 2) 2 1 [([[1, 0]], [[1, 0]])]).2.getD 0 0 =
          1 * normPpf (lowerConfidenceBound (1 / 2)
            ((predictionCounts (([([[1, 0]], [[1, 0]])] :
                List (List (List ℚ) × List (List ℚ))).getD 0 ([], [])).2 2).getD
              (argmaxIdxNat (predictionCounts (([([[1, 0]], [[1, 0]])] :
                List (List (List ℚ) × List (List ℚ))).getD 0 ([], [])).1 2)) 0) 1)) :=
  c1_certify_formula 1 (1 / 2) 2 1 [([[1, 0]], [[1, 0]])] 0 (by norm_num)

/-- Witness for the amended C3 on an input with a four-row second pass. -/
theorem c3_amended_radius_sentinel_witness :
    0 ≤ (rsCertify 1 (1 / 2) 2 4
        [([[1, 0]], [[1, 0], [1, 0], [1, 0], [0, 1]])]).2.getD 0 0 ∧
      ((rsCertify 1 (1 / 2) 2 4
          [([[1, 0]], [[1, 0], [1, 0], [1, 0], [0, 1]])]).1.getD 0 0 = -1 →
        (rsCertify 1 (1 / 2) 2 4
          [([[1, 0]], [[1, 0], [1, 0], [1, 0], [0, 1]])]).2.getD 0 0 = 0) ∧
      ((rsCertify 1 (1 / 2) 2 4
          [([[1, 0]], [[1, 0], [1, 0], [1, 0], [0, 1]])]).2.getD 0 0 = 0 →
        (rsCertify 1 (1 / 2) 2 4
          [([[1, 0]], [[1, 0], [1, 0], [1, 0], [0, 1]])]).1.getD 0 0 = -1 ∨
          lowerConfidenceBound (1 / 2)
            ((predictionCounts (([([[1, 0]], [[1, 0], [1, 0], [1, 0], [0, 1]])] :
                List (List (List ℚ) × List (List ℚ))).getD 0 ([], [])).2 2).getD
              (argmaxIdxNat (predictionCounts
                (([([[1, 0]], [[1, 0], [1, 0], [1, 0], [0, 1]])] :
                  List (List (List ℚ) × List (List ℚ))).getD 0 ([], [])).1 2)) 0) 4
            = 1 / 2) :=
  c3_amended_radius_sentinel 1 (1 / 2) 2 4
    [([[1, 0]], [[1, 0], [1, 0], [1, 0], [0, 1]])] 0 (by norm_num) (by norm_num)
    (by norm_num) (by decide)
